import Mathlib

/-!
Verification of the AbletonOSC browser handler (`src/abletonosc/browser.py`)
against its natural-language specification.

The browser catalog is a forest of named nodes supplied by the host.  Child
enumeration is lazy and may raise mid-iteration; a node in this development
carries `faultAt`: `none` means iterating its children yields all of them and
terminates normally, `some k` means the iterator yields the first `k` children
and then raises a traversal fault.  All handlers are embedded as pure
functions; the activation side effect (`browser.load_item(node)`) is made
observable by returning the ordered list of activated nodes alongside the
handler's wire output.
-/

/-- An OSC parameter as received by a handler: the code only ever applies
`str(...)` or `int(...)` to them, so strings and integers suffice. -/
inductive PVal where
  | pstr (s : String)
  | pint (n : Int)

/-- Python `str(p)` on a parameter. -/
def pyStr : PVal → String
  | .pstr s => s
  | .pint n => toString n

/-- Python `int(p)` on a parameter (modelled for integer parameters and for
strings that parse as integers, the only inputs the handlers are given). -/
def pyInt : PVal → Int
  | .pint n => n
  | .pstr s => (s.toInt?).getD 0

mutual
/-- A browser node: `name`, `is_loadable`, `is_folder`, the fault position of
its child iterator (`none` = no fault), and its children. -/
inductive BNode where
  | mk (name : String) (is_loadable : Bool) (is_folder : Bool)
       (faultAt : Option Nat) (kids : BForest)

/-- An ordered sequence of browser nodes (children of a node). -/
inductive BForest where
  | nil
  | cons (c : BNode) (rest : BForest)
end

def BNode.name : BNode → String
  | .mk nm _ _ _ _ => nm

def BNode.is_loadable : BNode → Bool
  | .mk _ lo _ _ _ => lo

def BNode.is_folder : BNode → Bool
  | .mk _ _ fo _ _ => fo

def BNode.faultAt : BNode → Option Nat
  | .mk _ _ _ fa _ => fa

def BNode.kids : BNode → BForest
  | .mk _ _ _ _ ks => ks

def BForest.toList : BForest → List BNode
  | .nil => []
  | .cons c rest => c :: rest.toList

def BForest.take : Nat → BForest → BForest
  | 0, _ => .nil
  | _ + 1, .nil => .nil
  | n + 1, .cons c rest => .cons c (BForest.take n rest)

/-- Returns `true` when the child iterator raises now (its fault position is 0). -/
def fuelStop : Option Nat → Bool
  | some 0 => true
  | _ => false

/-- One child has been yielded: move the fault position one step closer. -/
def decFuel : Option Nat → Option Nat
  | none => none
  | some n => some (n - 1)

/-- The children actually yielded by a node's iterator before it either ends
or raises: all of them, or the prefix before the fault. -/
def yielded (t : BNode) : List BNode :=
  match t.faultAt with
  | none => t.kids.toList
  | some k => (t.kids.toList).take k

/-- Python `s.lower()` (ASCII case folding, which is what the catalog names
exercise). -/
def lowerStr (s : String) : String :=
  String.mk (s.data.map Char.toLower)

/-- Python `needle in hay` on lists of characters: contiguous-substring test. -/
def listSub (n : List Char) : List Char → Bool
  | [] => decide (n = [])
  | c :: t => n.isPrefixOf (c :: t) || listSub n t

/-- Python `needle in hay` on strings: contiguous-substring containment. -/
def substrB (needle hay : String) : Bool :=
  listSub needle.data hay.data

/-- Python `path + "/" + name if path else name` (browser.py lines 83, 140). -/
def currentPath (path nm : String) : String :=
  if path = "" then nm else path ++ "/" ++ nm

/-- Python `"a/b/c".split("/")` restricted to the separator `"/"`. -/
def splitSlashAux : List Char → List Char → List String
  | [], acc => [String.mk acc.reverse]
  | c :: rest, acc =>
      if c = '/' then String.mk acc.reverse :: splitSlashAux rest []
      else splitSlashAux rest (c :: acc)

def splitSlash (s : String) : List String :=
  splitSlashAux s.data []

/-- The resolution loop shared by pack lookup (browser.py lines 63-67 and
187-191) and path-segment navigation (lines 199-206): the first candidate
`c` with `c.name == seg or seg.lower() in c.name.lower()` wins. -/
def findMatch (seg : String) (cs : List BNode) : Option BNode :=
  cs.find? (fun c => c.name == seg || substrB (lowerStr seg) (lowerStr c.name))

/-- The top-level browser object: the packs forest plus the five fixed roots. -/
structure Browser where
  packs : List BNode
  instruments : BNode
  audio_effects : BNode
  midi_effects : BNode
  drums : BNode
  sounds : BNode

mutual
/-- Embeds `_collect_loadable_items(item, path, results, depth)` (browser.py
lines 78-92), with the mutated `results` list made explicit: the value is the
sequence of paths this call appends. -/
def collectItem (t : BNode) (path : String) (d : Int) : List String :=
  if d ≤ 0 then []
  else
    match t with
    | .mk nm _ _ fa kids => collectKids kids fa (currentPath path nm) d

/-- The `for child in item.iter_children` loop of `_collect_loadable_items`,
together with its enclosing `try/except`: a fault position of 0 ends the loop
with the results gathered so far. -/
def collectKids (cs : BForest) (fu : Option Nat) (cur : String) (d : Int) :
    List String :=
  match cs with
  | .nil => []
  | .cons c rest =>
    if fuelStop fu then []
    else
      (if c.is_loadable then [cur ++ "/" ++ c.name] else [])
        ++ (if c.is_folder then collectItem c cur (d - 1) else [])
        ++ collectKids rest (decFuel fu) cur d
end

abbrev SearchHit := String × String × String

mutual
/-- Embeds `_search_item(item, query, results, max_results, depth, pack_name, path)`
(browser.py lines 135-153), with the mutated `results` explicit as an
accumulator that the call extends and returns. -/
def searchItem (t : BNode) (q : String) (res : List SearchHit) (mr : Int)
    (d : Int) (pn : String) (path : String) : List SearchHit :=
  if d ≤ 0 ∨ mr ≤ (res.length : Int) then res
  else
    match t with
    | .mk nm _ _ fa kids => searchKids kids fa q res mr d pn (currentPath path nm)

/-- The child loop of `_search_item` with its `try/except` and its
`len(results) >= max_results` break. -/
def searchKids (cs : BForest) (fu : Option Nat) (q : String)
    (res : List SearchHit) (mr : Int) (d : Int) (pn : String) (cur : String) :
    List SearchHit :=
  match cs with
  | .nil => res
  | .cons c rest =>
    if fuelStop fu then res
    else if mr ≤ (res.length : Int) then res
    else
      let res1 := if c.is_loadable && substrB q (lowerStr c.name) then
                    res ++ [(c.name, pn, cur ++ "/" ++ c.name)]
                  else res
      let res2 := if c.is_folder then searchItem c q res1 mr (d - 1) pn cur
                  else res1
      searchKids rest (decFuel fu) q res2 mr d pn cur
end

/-- The pack loop of `browser_search` (browser.py lines 122-125). -/
def searchPacks (packs : List BNode) (q : String) (mr md : Int)
    (res : List SearchHit) : List SearchHit :=
  match packs with
  | [] => res
  | pk :: rest =>
    if mr ≤ (res.length : Int) then res
    else searchPacks rest q mr md (searchItem pk q res mr md pk.name "")

/-- Embeds `browser_search(params)` (browser.py lines 101-133). -/
def browser_search (br : Browser) (params : List PVal) : List String :=
  match params with
  | [] => []
  | p :: rest =>
    let q := lowerStr (pyStr p)
    let mr := ((rest[0]?).map pyInt).getD 50
    let md := ((rest[1]?).map pyInt).getD 10
    (searchPacks br.packs q mr md []).map
      (fun t => t.1 ++ "|" ++ t.2.1 ++ "|" ++ t.2.2)

/-- Embeds `browser_list_pack_contents(params)` (browser.py lines 46-76). -/
def browser_list_pack_contents (br : Browser) (params : List PVal) :
    List String :=
  match params with
  | [] => []
  | p :: rest =>
    let pack_name := pyStr p
    let max_depth := ((rest[0]?).map pyInt).getD 10
    match findMatch pack_name br.packs with
    | none => []
    | some pk => collectItem pk "" max_depth

/-- The segment-navigation loop of `browser_load_item` (browser.py lines
198-213): resolve each remaining segment against the children the iterator
yields; a missing match (whether because no child matches or because the
iterator faulted first) aborts. -/
def loadNavigate (cur : BNode) (segs : List String) : Option BNode :=
  match segs with
  | [] => some cur
  | s :: rest =>
    match findMatch s (yielded cur) with
    | some c => loadNavigate c rest
    | none => none

/-- Embeds `browser_load_item(params)` (browser.py lines 162-222).  The second
component of the result is the list of nodes passed to the external
activation capability `browser.load_item`. -/
def browser_load_item (br : Browser) (params : List PVal) :
    List Int × List BNode :=
  match params with
  | [] => ([-1], [])
  | p :: _ =>
    let parts := splitSlash (pyStr p)
    if parts.length < 2 then ([-1], [])
    else
      match parts with
      | [] => ([-1], [])
      | pack_name :: item_path =>
        match findMatch pack_name br.packs with
        | none => ([-1], [])
        | some pk =>
          match loadNavigate pk item_path with
          | none => ([-1], [])
          | some item =>
            if item.is_loadable then ([1], [item]) else ([-1], [])

/-- Python truthiness of `_find_and_load`'s result: `None` and the empty
string are both falsy. -/
def truthy : Option String → Bool
  | none => false
  | some s => s != ""

mutual
/-- Embeds `_find_and_load(item, query, depth)` (browser.py lines 270-291).  Returns
the name the function returns (`none` for Python `None`) and the list of
nodes activated during the call. -/
def findItem (t : BNode) (q : String) (d : Int) : Option String × List BNode :=
  if d ≤ 0 then (none, [])
  else
    match t with
    | .mk _ _ _ fa kids => findKids kids fa q d

/-- The child loop of `_find_and_load` with its `try/except`. -/
def findKids (cs : BForest) (fu : Option Nat) (q : String) (d : Int) :
    Option String × List BNode :=
  match cs with
  | .nil => (none, [])
  | .cons c rest =>
    if fuelStop fu then (none, [])
    else
      if c.is_loadable && substrB q (lowerStr c.name) then (some c.name, [c])
      else if c.is_folder then
        let r := findItem c q (d - 1)
        if truthy r.1 then r
        else
          let r2 := findKids rest (decFuel fu) q d
          (r2.1, r.2 ++ r2.2)
      else findKids rest (decFuel fu) q d
end

/-- The root loop of `browser_search_and_load` (browser.py lines 248-265):
the pack roots followed by the five fixed roots, each searched with depth 10;
a falsy result moves on to the next root, with any activations kept. -/
def salRoots (roots : List BNode) (q : String) : Option String × List BNode :=
  match roots with
  | [] => (none, [])
  | r :: rest =>
    let p := findItem r q 10
    if truthy p.1 then p
    else
      let p2 := salRoots rest q
      (p2.1, p.2 ++ p2.2)

/-- Embeds `browser_search_and_load(params)` (browser.py lines 230-268), with the
activated nodes returned as the second component. -/
def browser_search_and_load (br : Browser) (params : List PVal) :
    List String × List BNode :=
  match params with
  | [] => ([""], [])
  | p :: _ =>
    let q := lowerStr (pyStr p)
    match salRoots (br.packs ++ [br.instruments, br.audio_effects,
        br.midi_effects, br.drums, br.sounds]) q with
    | (some s, ls) => ([s], ls)
    | (none, ls) => ([""], ls)

mutual
/-- Embeds `_collect_loadable_items` run with an unbounded depth limit: the same
traversal as `collectItem` with the `depth <= 0` test never firing. -/
def collectUItem (t : BNode) (path : String) : List String :=
  match t with
  | .mk nm _ _ fa kids => collectUKids kids fa (currentPath path nm)

def collectUKids (cs : BForest) (fu : Option Nat) (cur : String) :
    List String :=
  match cs with
  | .nil => []
  | .cons c rest =>
    if fuelStop fu then []
    else
      (if c.is_loadable then [cur ++ "/" ++ c.name] else [])
        ++ (if c.is_folder then collectUItem c cur else [])
        ++ collectUKids rest (decFuel fu) cur
end

mutual
/-- The height (number of levels) of a browser node: 1 for the node itself
plus the maximal height among its children, all of them, ignoring fault
positions. -/
def heightB (t : BNode) : Nat :=
  match t with
  | .mk _ _ _ _ kids => 1 + heightKids kids

def heightKids (cs : BForest) : Nat :=
  match cs with
  | .nil => 0
  | .cons c rest => max (heightB c) (heightKids rest)
end

mutual
/-- Modelled from the spec: the pre-order enumeration, in the traversal order
of `_find_and_load` (children in source order, each folder's subtree explored
before later siblings, depth-limited, fault-truncated), of the loadable nodes
whose lowercased name contains the query. -/
def matchItem (t : BNode) (q : String) (d : Int) : List BNode :=
  if d ≤ 0 then []
  else
    match t with
    | .mk _ _ _ fa kids => matchKids kids fa q d

def matchKids (cs : BForest) (fu : Option Nat) (q : String) (d : Int) :
    List BNode :=
  match cs with
  | .nil => []
  | .cons c rest =>
    if fuelStop fu then []
    else
      (if c.is_loadable && substrB q (lowerStr c.name) then [c] else [])
        ++ (if c.is_folder then matchItem c q (d - 1) else [])
        ++ matchKids rest (decFuel fu) q d
end

/-- Modelled from the spec: all matches of `browser_search_and_load`'s query
in its documented search order — every pack root first, in source order, then
the fixed roots instruments, audio effects, MIDI effects, drums, sounds,
each explored to depth 10. -/
def allMatches (br : Browser) (q : String) : List BNode :=
  (br.packs ++ [br.instruments, br.audio_effects, br.midi_effects, br.drums,
    br.sounds]).flatMap (fun r => matchItem r q 10)

/-- What a first-match search should report: the head of the match
enumeration as returned name plus single activation, or nothing. -/
def headResult (l : List BNode) : Option String × List BNode :=
  match l with
  | [] => (none, [])
  | m :: _ => (some m.name, [m])

/-- The resolution of `browser_load_item`'s path expressed as a fold: split
on `/`, require at least two segments, resolve the pack, then resolve each
remaining segment with `findMatch` over the children the iterator yields. -/
def resolvePath (br : Browser) (path : String) : Option BNode :=
  match splitSlash path with
  | pk :: s :: rest =>
    (findMatch pk br.packs).bind
      (fun p0 => (s :: rest).foldlM (fun cur seg => findMatch seg (yielded cur)) p0)
  | _ => none

/-- Modelled from the spec: the exact-then-contains resolution rule of §4.3 —
scan for an exact name match first, and only if none exists accept the first
candidate whose name contains the segment case-insensitively. -/
def exactThenContains (seg : String) (cs : List BNode) : Option BNode :=
  match cs.find? (fun c => c.name == seg) with
  | some c => some c
  | none => cs.find? (fun c => substrB (lowerStr seg) (lowerStr c.name))

/-- Slash-joining of a non-empty segment chain (`joinSegs [a, b, c] =
"a/b/c"`); the canonical-path former of the spec's §3. -/
def joinSegs : List String → String
  | [] => ""
  | [a] => a
  | a :: b :: l => a ++ "/" ++ joinSegs (b :: l)

-- Concrete catalogs used by counterexamples and witnesses. ---------------

def kick : BNode := .mk "808 Kick" true false none .nil
def kicksFolder : BNode := .mk "Kicks" false true none (.cons kick .nil)
def demoPack : BNode := .mk "Drums Pack" false true none (.cons kicksFolder .nil)
def leafRoot (nm : String) : BNode := .mk nm false false none .nil
def demoBrowser : Browser :=
  { packs := [demoPack]
    instruments := leafRoot "Instruments"
    audio_effects := leafRoot "Audio Effects"
    midi_effects := leafRoot "MIDI Effects"
    drums := leafRoot "Drums"
    sounds := leafRoot "Sounds" }

/-- A folder whose name contains `b` but is not an exact match for `"B"`. -/
def nAB : BNode := .mk "AB" false true none .nil

/-- A loadable node whose name is exactly `"B"`. -/
def nB : BNode := .mk "B" true false none .nil

/-- A pack named `P` whose first child merely contains the segment `B` while
its second child matches it exactly. -/
def packPB : BNode := .mk "P" false true none (.cons nAB (.cons nB .nil))

def browserPB : Browser :=
  { packs := [packPB]
    instruments := leafRoot "Instruments"
    audio_effects := leafRoot "Audio Effects"
    midi_effects := leafRoot "MIDI Effects"
    drums := leafRoot "Drums"
    sounds := leafRoot "Sounds" }

/-- A folder whose child iterator yields one child (`Amatch`) and then
raises, hiding its second child `Bmatch`. -/
def faultyFolder : BNode :=
  .mk "F" false true (some 1)
    (.cons (.mk "Amatch" true false none .nil)
      (.cons (.mk "Bmatch" true false none .nil) .nil))

/-- A pack containing the faulting folder followed by a healthy sibling. -/
def faultPack : BNode :=
  .mk "P" false true none
    (.cons faultyFolder (.cons (.mk "Cmatch" true false none .nil) .nil))

/-- A pack whose name is the empty string, holding a folder `f` that holds a
loadable `g`. -/
def emptyNamePack : BNode :=
  .mk "" false true none
    (.cons (.mk "f" false true none (.cons (.mk "g" true false none .nil) .nil))
      .nil)

/-- A loadable node whose name is the empty string. -/
def emptyNameNode : BNode := .mk "" true false none .nil

/-- A loadable node named `y`. -/
def yNode : BNode := .mk "y" true false none .nil

/-- Two packs: the first contains a loadable item with an empty name, the
second a loadable item named `y`. -/
def twoPackBrowser : Browser :=
  { packs := [.mk "P1" false true none (.cons emptyNameNode .nil),
              .mk "P2" false true none (.cons yNode .nil)]
    instruments := leafRoot "Instruments"
    audio_effects := leafRoot "Audio Effects"
    midi_effects := leafRoot "MIDI Effects"
    drums := leafRoot "Drums"
    sounds := leafRoot "Sounds" }

/-- First child of the pack used to exercise empty-segment resolution. -/
def xNode : BNode := .mk "X" true false none .nil

/-- A pack whose first child is loadable, for resolving a trailing-slash
path. -/
def slashPack : BNode := .mk "P" false true none (.cons xNode (.cons nB .nil))

def slashBrowser : Browser :=
  { packs := [slashPack]
    instruments := leafRoot "Instruments"
    audio_effects := leafRoot "Audio Effects"
    midi_effects := leafRoot "MIDI Effects"
    drums := leafRoot "Drums"
    sounds := leafRoot "Sounds" }

-- Helper lemmas -----------------------------------------------------------

theorem isPrefixOf_self (l : List Char) : List.isPrefixOf l l = true := by
  induction l with
  | nil => rfl
  | cons a t ih => simp [List.isPrefixOf, ih]

theorem substrB_empty (s : String) : substrB "" s = true := by
  obtain ⟨d⟩ := s
  show listSub [] d = true
  cases d with
  | nil => rfl
  | cons c t => simp [listSub, List.isPrefixOf]

theorem substrB_self (s : String) : substrB s s = true := by
  obtain ⟨d⟩ := s
  show listSub d d = true
  cases d with
  | nil => rfl
  | cons c t => simp [listSub, isPrefixOf_self]

theorem slashAppend_ne (s t : String) : s ++ "/" ++ t ≠ "" := by
  intro h
  have := congrArg String.data h
  simp [String.data_append] at this

theorem currentPath_of_ne (s t : String) (h : s ≠ "") :
    currentPath s t = s ++ "/" ++ t := if_neg h

theorem joinSegs_single (a : String) : joinSegs [a] = a := rfl

theorem joinSegs_snoc (a : String) (l : List String) (y : String) :
    joinSegs (a :: (l ++ [y])) = joinSegs (a :: l) ++ "/" ++ y := by
  induction l generalizing a with
  | nil => rfl
  | cons b l2 ih =>
    show a ++ "/" ++ joinSegs (b :: (l2 ++ [y]))
        = (a ++ "/" ++ joinSegs (b :: l2)) ++ "/" ++ y
    rw [ih b]
    simp [String.append_assoc]

theorem collectKids_fault : ∀ (cs : BForest) (k : Nat) (cur : String) (d : Int),
    collectKids cs (some k) cur d = collectKids (BForest.take k cs) none cur d
  | .nil, k, cur, d => by cases k <;> rfl
  | .cons c rest, 0, cur, d => rfl
  | .cons c rest, k + 1, cur, d => by
    simp only [collectKids, BForest.take, fuelStop, decFuel, Nat.add_sub_cancel]
    rw [collectKids_fault rest k cur d]

theorem searchKids_fault : ∀ (cs : BForest) (k : Nat) (q : String)
    (res : List SearchHit) (mr d : Int) (pn cur : String),
    searchKids cs (some k) q res mr d pn cur
      = searchKids (BForest.take k cs) none q res mr d pn cur
  | .nil, k, q, res, mr, d, pn, cur => by cases k <;> rfl
  | .cons c rest, 0, q, res, mr, d, pn, cur => rfl
  | .cons c rest, k + 1, q, res, mr, d, pn, cur => by
    simp only [searchKids, BForest.take, fuelStop, decFuel, Nat.add_sub_cancel]
    rw [searchKids_fault rest k]

theorem collectKids_unb : ∀ (cs : BForest) (fu : Option Nat) (cur : String)
    (d : Int), (heightKids cs : Int) < d →
    collectKids cs fu cur d = collectUKids cs fu cur
  | .nil, fu, cur, d, _ => rfl
  | .cons (.mk nm lo fo fa kids) rest, fu, cur, d, h => by
    have hmax : (max (1 + heightKids kids) (heightKids rest) : Int) < d := by
      simpa [heightKids, heightB, Nat.cast_max] using h
    have hkid : (heightKids kids : Int) < d - 1 := by
      have := le_trans (le_max_left ((1 + heightKids kids : Nat) : Int)
        ((heightKids rest : Nat) : Int)) (le_of_lt hmax)
      push_cast at this ⊢
      omega
    have hrest : (heightKids rest : Int) < d := by
      have := le_trans (le_max_right ((1 + heightKids kids : Nat) : Int)
        ((heightKids rest : Nat) : Int)) (le_of_lt hmax)
      omega
    have hpos : ¬ (d - 1 ≤ 0) := by
      have : (0 : Int) ≤ (heightKids kids : Int) := Int.natCast_nonneg _
      omega
    simp only [collectKids, collectUKids, collectItem, collectUItem,
      BNode.is_loadable, BNode.is_folder, BNode.name, if_neg hpos]
    rw [collectKids_unb kids fa (currentPath cur nm) (d - 1) hkid,
        collectKids_unb rest (decFuel fu) cur d hrest]

theorem collectItem_unb (t : BNode) (path : String) (d : Int)
    (h : (heightB t : Int) ≤ d) : collectItem t path d = collectUItem t path := by
  cases t with
  | mk nm lo fo fa kids =>
    have h1 : ((1 + heightKids kids : Nat) : Int) ≤ d := by
      simpa [heightB] using h
    have hk : (heightKids kids : Int) < d := by push_cast at h1; omega
    have hd : ¬ (d ≤ 0) := by
      have : (0 : Int) ≤ (heightKids kids : Int) := Int.natCast_nonneg _
      omega
    simp only [collectItem, collectUItem, if_neg hd]
    exact collectKids_unb kids fa (currentPath path nm) d hk

theorem searchKids_len : ∀ (cs : BForest) (fu : Option Nat) (q : String)
    (res : List SearchHit) (mr d : Int) (pn cur : String),
    ((searchKids cs fu q res mr d pn cur).length : Int)
      ≤ max (res.length : Int) mr
  | .nil, fu, q, res, mr, d, pn, cur => by
    simp [searchKids]
  | .cons (.mk nm lo fo fa kids) rest, fu, q, res, mr, d, pn, cur => by
    simp only [searchKids, BNode.is_loadable, BNode.is_folder, BNode.name]
    split
    · exact le_max_left _ _
    split
    · exact le_max_left _ _
    rename_i hfuel hcap
    have hres : (res.length : Int) < mr := by omega
    have h1 : (((if lo && substrB q (lowerStr nm) then
        res ++ [(nm, pn, cur ++ "/" ++ nm)] else res).length : Nat) : Int) ≤ mr := by
      split
      · simp; omega
      · omega
    have hstep : ∀ (res1 : List SearchHit), ((res1.length : Nat) : Int) ≤ mr →
        (((if fo then searchItem (BNode.mk nm lo fo fa kids) q res1 mr (d - 1)
            pn cur else res1).length : Nat) : Int) ≤ mr := by
      intro res1 hr1
      split
      · simp only [searchItem]
        split
        · exact hr1
        · exact le_trans (searchKids_len kids fa q res1 mr (d - 1) pn _)
            (max_le hr1 (le_refl mr))
      · exact hr1
    exact le_trans (searchKids_len rest (decFuel fu) q _ mr d pn cur)
      (max_le (le_trans (hstep _ h1) (le_max_right _ _)) (le_max_right _ _))

theorem searchItem_len (t : BNode) (q : String) (res : List SearchHit)
    (mr d : Int) (pn path : String) :
    ((searchItem t q res mr d pn path).length : Int)
      ≤ max (res.length : Int) mr := by
  cases t with
  | mk nm lo fo fa kids =>
    simp only [searchItem]
    split
    · exact le_max_left _ _
    · exact searchKids_len kids fa q res mr d pn _

theorem searchPacks_len : ∀ (packs : List BNode) (q : String) (mr md : Int)
    (res : List SearchHit),
    ((searchPacks packs q mr md res).length : Int) ≤ max (res.length : Int) mr
  | [], q, mr, md, res => by simp [searchPacks]
  | pk :: rest, q, mr, md, res => by
    simp only [searchPacks]
    split
    · exact le_max_left _ _
    · exact le_trans (searchPacks_len rest q mr md _)
        (max_le (le_trans (searchItem_len pk q res mr md pk.name "")
          (le_refl _)) (le_max_right _ _))

theorem searchItem_depth (t : BNode) (q : String) (res : List SearchHit)
    (mr d : Int) (pn path : String) (h : d ≤ 0) :
    searchItem t q res mr d pn path = res := by
  cases t with
  | mk nm lo fo fa kids => simp [searchItem, if_pos (Or.inl h)]

theorem searchPacks_depth : ∀ (packs : List BNode) (q : String) (mr md : Int)
    (res : List SearchHit), md ≤ 0 → searchPacks packs q mr md res = res
  | [], q, mr, md, res, _ => rfl
  | pk :: rest, q, mr, md, res, h => by
    simp only [searchPacks]
    split
    · rfl
    · rw [searchItem_depth pk q res mr md pk.name "" h]
      exact searchPacks_depth rest q mr md res h

theorem searchKids_mem : ∀ (cs : BForest) (fu : Option Nat) (q : String)
    (res : List SearchHit) (mr d : Int) (pn cur : String) (t : SearchHit),
    t ∈ searchKids cs fu q res mr d pn cur →
    t ∈ res ∨ (substrB q (lowerStr t.1) = true ∧ t.2.1 = pn)
  | .nil, fu, q, res, mr, d, pn, cur, t => fun ht => Or.inl ht
  | .cons (.mk nm lo fo fa kids) rest, fu, q, res, mr, d, pn, cur, t => by
    intro ht
    simp only [searchKids, BNode.is_loadable, BNode.is_folder, BNode.name] at ht
    split at ht
    · exact Or.inl ht
    split at ht
    · exact Or.inl ht
    have hres1 : t ∈ (if (lo && substrB q (lowerStr nm)) = true then
        res ++ [(nm, pn, cur ++ "/" ++ nm)] else res) →
        t ∈ res ∨ (substrB q (lowerStr t.1) = true ∧ t.2.1 = pn) := by
      intro h3
      split at h3
      · rename_i hcond
        rcases List.mem_append.mp h3 with h4 | h4
        · exact Or.inl h4
        · right
          have ht4 : t = (nm, pn, cur ++ "/" ++ nm) := List.mem_singleton.mp h4
          subst ht4
          simp only [Bool.and_eq_true] at hcond
          exact ⟨hcond.2, rfl⟩
      · exact Or.inl h3
    have hitem : ∀ (res1 : List SearchHit),
        t ∈ searchItem (BNode.mk nm lo fo fa kids) q res1 mr (d - 1) pn cur →
        t ∈ res1 ∨ (substrB q (lowerStr t.1) = true ∧ t.2.1 = pn) := by
      intro res1 h2
      simp only [searchItem, BNode.name] at h2
      split at h2
      · exact Or.inl h2
      · exact searchKids_mem kids fa q res1 mr (d - 1) pn _ t h2
    have hres2 : t ∈ (if fo = true then
        searchItem (BNode.mk nm lo fo fa kids) q
          (if (lo && substrB q (lowerStr nm)) = true then
            res ++ [(nm, pn, cur ++ "/" ++ nm)] else res) mr (d - 1) pn cur
        else (if (lo && substrB q (lowerStr nm)) = true then
            res ++ [(nm, pn, cur ++ "/" ++ nm)] else res)) →
        t ∈ res ∨ (substrB q (lowerStr t.1) = true ∧ t.2.1 = pn) := by
      intro h2
      split at h2
      · rcases hitem _ h2 with h5 | h5
        · exact hres1 h5
        · exact Or.inr h5
      · exact hres1 h2
    rcases searchKids_mem rest (decFuel fu) q _ mr d pn cur t ht with h6 | h6
    · exact hres2 h6
    · exact Or.inr h6

theorem searchKids_path : ∀ (cs : BForest) (fu : Option Nat) (q : String)
    (res : List SearchHit) (mr d : Int) (pn cur : String) (mids0 : List String),
    cur = joinSegs (pn :: mids0) → cur ≠ "" →
    ∀ t : SearchHit, t ∈ searchKids cs fu q res mr d pn cur →
    t ∈ res ∨ ∃ mids : List String, t.2.2 = joinSegs (pn :: (mids ++ [t.1]))
  | .nil, fu, q, res, mr, d, pn, cur, mids0, hcur, hne, t => fun ht => Or.inl ht
  | .cons (.mk nm lo fo fa kids) rest, fu, q, res, mr, d, pn, cur, mids0,
      hcur, hne, t => by
    intro ht
    simp only [searchKids, BNode.is_loadable, BNode.is_folder, BNode.name] at ht
    split at ht
    · exact Or.inl ht
    split at ht
    · exact Or.inl ht
    have hext : cur ++ "/" ++ nm = joinSegs (pn :: (mids0 ++ [nm])) := by
      rw [joinSegs_snoc, ← hcur]
    have hres1 : t ∈ (if (lo && substrB q (lowerStr nm)) = true then
        res ++ [(nm, pn, cur ++ "/" ++ nm)] else res) →
        t ∈ res ∨ ∃ mids : List String,
          t.2.2 = joinSegs (pn :: (mids ++ [t.1])) := by
      intro h3
      split at h3
      · rcases List.mem_append.mp h3 with h4 | h4
        · exact Or.inl h4
        · right
          have ht4 : t = (nm, pn, cur ++ "/" ++ nm) := List.mem_singleton.mp h4
          subst ht4
          exact ⟨mids0, hext⟩
      · exact Or.inl h3
    have hitem : ∀ (res1 : List SearchHit),
        t ∈ searchItem (BNode.mk nm lo fo fa kids) q res1 mr (d - 1) pn cur →
        t ∈ res1 ∨ ∃ mids : List String,
          t.2.2 = joinSegs (pn :: (mids ++ [t.1])) := by
      intro res1 h2
      simp only [searchItem, BNode.name] at h2
      split at h2
      · exact Or.inl h2
      · rw [currentPath_of_ne cur nm hne] at h2
        exact searchKids_path kids fa q res1 mr (d - 1) pn _ (mids0 ++ [nm])
          hext (slashAppend_ne cur nm) t h2
    have hres2 : t ∈ (if fo = true then
        searchItem (BNode.mk nm lo fo fa kids) q
          (if (lo && substrB q (lowerStr nm)) = true then
            res ++ [(nm, pn, cur ++ "/" ++ nm)] else res) mr (d - 1) pn cur
        else (if (lo && substrB q (lowerStr nm)) = true then
            res ++ [(nm, pn, cur ++ "/" ++ nm)] else res)) →
        t ∈ res ∨ ∃ mids : List String,
          t.2.2 = joinSegs (pn :: (mids ++ [t.1])) := by
      intro h2
      split at h2
      · rcases hitem _ h2 with h5 | h5
        · exact hres1 h5
        · exact Or.inr h5
      · exact hres1 h2
    rcases searchKids_path rest (decFuel fu) q _ mr d pn cur mids0 hcur hne t ht
      with h6 | h6
    · exact hres2 h6
    · exact Or.inr h6

theorem searchItem_mem (t0 : BNode) (q : String) (res : List SearchHit)
    (mr d : Int) (pn path : String) (t : SearchHit)
    (h : t ∈ searchItem t0 q res mr d pn path) :
    t ∈ res ∨ (substrB q (lowerStr t.1) = true ∧ t.2.1 = pn) := by
  cases t0 with
  | mk nm lo fo fa kids =>
    simp only [searchItem] at h
    split at h
    · exact Or.inl h
    · exact searchKids_mem kids fa q res mr d pn _ t h

theorem searchItem_path (t0 : BNode) (q : String) (res : List SearchHit)
    (mr d : Int) (t : SearchHit)
    (h : t ∈ searchItem t0 q res mr d t0.name "") (hne : t0.name ≠ "") :
    t ∈ res ∨ ∃ mids : List String,
      t.2.2 = joinSegs (t0.name :: (mids ++ [t.1])) := by
  cases t0 with
  | mk nm lo fo fa kids =>
    simp only [searchItem, BNode.name] at h hne ⊢
    split at h
    · exact Or.inl h
    · have hcp : currentPath "" nm = nm := if_pos rfl
      rw [hcp] at h
      exact searchKids_path kids fa q res mr d nm nm [] rfl hne t h

theorem searchPacks_mem : ∀ (packs : List BNode) (q : String) (mr md : Int)
    (res : List SearchHit) (t : SearchHit), t ∈ searchPacks packs q mr md res →
    t ∈ res ∨ ∃ pk ∈ packs, t.2.1 = pk.name ∧ substrB q (lowerStr t.1) = true ∧
      (pk.name ≠ "" → ∃ mids : List String,
        t.2.2 = joinSegs (pk.name :: (mids ++ [t.1])))
  | [], q, mr, md, res, t => fun ht => Or.inl ht
  | pk :: rest, q, mr, md, res, t => by
    intro ht
    simp only [searchPacks] at ht
    split at ht
    · exact Or.inl ht
    rcases searchPacks_mem rest q mr md _ t ht with h1 | h1
    · rcases searchItem_mem pk q res mr md pk.name "" t h1 with h2 | h2
      · exact Or.inl h2
      · by_cases hne0 : pk.name = ""
        · exact Or.inr ⟨pk, List.mem_cons_self pk rest, h2.2, h2.1,
            fun hc => absurd hne0 hc⟩
        · rcases searchItem_path pk q res mr md t h1 hne0 with h3 | h3
          · exact Or.inl h3
          · exact Or.inr ⟨pk, List.mem_cons_self pk rest, h2.2, h2.1,
              fun _ => h3⟩
    · rcases h1 with ⟨pk2, hpk2, hrest⟩
      exact Or.inr ⟨pk2, List.mem_cons_of_mem pk hpk2, hrest⟩

theorem loadNavigate_foldlM : ∀ (segs : List String) (cur : BNode),
    loadNavigate cur segs
      = segs.foldlM (fun c seg => findMatch seg (yielded c)) cur
  | [], cur => rfl
  | s :: rest, cur => by
    rw [List.foldlM_cons]
    simp only [loadNavigate]
    cases h : findMatch s (yielded cur) with
    | none => simp
    | some c => simp [loadNavigate_foldlM rest c]

theorem findKids_headResult : ∀ (cs : BForest) (fu : Option Nat) (q : String)
    (d : Int), (∀ m ∈ matchKids cs fu q d, m.name ≠ "") →
    findKids cs fu q d = headResult (matchKids cs fu q d)
  | .nil, fu, q, d, _ => rfl
  | .cons (.mk nm lo fo fa kids) rest, fu, q, d, h => by
    cases hfu : fuelStop fu with
    | true => simp [findKids, matchKids, hfu, headResult]
    | false =>
      have hms : matchKids (BForest.cons (BNode.mk nm lo fo fa kids) rest) fu q d
          = (if (lo && substrB q (lowerStr nm)) = true
              then [BNode.mk nm lo fo fa kids] else [])
            ++ ((if fo = true then matchItem (BNode.mk nm lo fo fa kids) q (d - 1)
              else []) ++ matchKids rest (decFuel fu) q d) := by
        simp [matchKids, hfu, BNode.is_loadable, BNode.is_folder, BNode.name,
          List.append_assoc]
      have hrest : ∀ m ∈ matchKids rest (decFuel fu) q d, m.name ≠ "" :=
        fun m hm => h m (by
          rw [hms]
          exact List.mem_append_right _ (List.mem_append_right _ hm))
      have hsubAll : ∀ m ∈ (if fo = true then
          matchItem (BNode.mk nm lo fo fa kids) q (d - 1) else []), m.name ≠ "" :=
        fun m hm => h m (by
          rw [hms]
          exact List.mem_append_right _ (List.mem_append_left _ hm))
      rw [hms]
      simp only [findKids, BNode.is_loadable, BNode.is_folder, BNode.name, hfu,
        Bool.false_eq_true, if_false]
      split
      · rename_i hcond
        simp [headResult, hcond, BNode.name]
      · rename_i hcond
        split
        · rename_i hfo
          by_cases hd : d - 1 ≤ 0
          · have hfi : findItem (BNode.mk nm lo fo fa kids) q (d - 1)
                = (none, []) := by simp [findItem, hd]
            have hmi : matchItem (BNode.mk nm lo fo fa kids) q (d - 1) = [] := by
              simp [matchItem, hd]
            rw [hfi, hmi, findKids_headResult rest (decFuel fu) q d hrest]
            simp [truthy, headResult]
          · have hfi : findItem (BNode.mk nm lo fo fa kids) q (d - 1)
                = findKids kids fa q (d - 1) := by simp [findItem, hd]
            have hmi : matchItem (BNode.mk nm lo fo fa kids) q (d - 1)
                = matchKids kids fa q (d - 1) := by simp [matchItem, hd]
            have hsub : ∀ m ∈ matchKids kids fa q (d - 1), m.name ≠ "" :=
              fun m hm => hsubAll m (by rw [if_pos hfo, hmi]; exact hm)
            rw [hfi, hmi, findKids_headResult kids fa q (d - 1) hsub]
            cases hmk : matchKids kids fa q (d - 1) with
            | nil =>
              rw [findKids_headResult rest (decFuel fu) q d hrest]
              simp [truthy, headResult]
            | cons m tl =>
              have hm : m.name ≠ "" :=
                hsub m (by rw [hmk]; exact List.mem_cons_self m tl)
              have htr : truthy (some m.name) = true := by
                simp [truthy, hm]
              simp [headResult, htr]
        · rename_i hfo
          rw [findKids_headResult rest (decFuel fu) q d hrest]
          simp [headResult]

theorem findItem_headResult (t0 : BNode) (q : String) (d : Int)
    (h : ∀ m ∈ matchItem t0 q d, m.name ≠ "") :
    findItem t0 q d = headResult (matchItem t0 q d) := by
  cases t0 with
  | mk nm lo fo fa kids =>
    by_cases hd : d ≤ 0
    · simp [findItem, matchItem, hd, headResult]
    · have hmi : matchItem (BNode.mk nm lo fo fa kids) q d
          = matchKids kids fa q d := by simp [matchItem, hd]
      rw [hmi] at h
      simp only [findItem, matchItem, if_neg hd]
      exact findKids_headResult kids fa q d h

theorem salRoots_headResult : ∀ (roots : List BNode) (q : String),
    (∀ m ∈ roots.flatMap (fun r => matchItem r q 10), m.name ≠ "") →
    salRoots roots q = headResult (roots.flatMap (fun r => matchItem r q 10))
  | [], q, _ => rfl
  | r :: rest, q, h => by
    have h1 : ∀ m ∈ matchItem r q 10, m.name ≠ "" := fun m hm => h m (by
      simp only [List.flatMap_cons]
      exact List.mem_append_left _ hm)
    have h2 : ∀ m ∈ rest.flatMap (fun x => matchItem x q 10), m.name ≠ "" :=
      fun m hm => h m (by
        simp only [List.flatMap_cons]
        exact List.mem_append_right _ hm)
    simp only [salRoots, List.flatMap_cons]
    rw [findItem_headResult r q 10 h1]
    cases hmk : matchItem r q 10 with
    | nil =>
      rw [salRoots_headResult rest q h2]
      simp [truthy, headResult]
    | cons m tl =>
      have hm : m.name ≠ "" := h1 m (by rw [hmk]; exact List.mem_cons_self m tl)
      have htr : truthy (some m.name) = true := by simp [truthy, hm]
      simp [headResult, htr]

-- Claim theorems -----------------------------------------------------------

/-- C1, counterexample: with candidates `[nAB, nB]` and segment `"B"`, an
exact match (`nB`, named `"B"`) exists, yet the resolution loop selects
`nAB`, an earlier entry that merely contains the segment case-insensitively.
Exact matches are not preferred. -/
theorem c1_counterexample :
    findMatch "B" [nAB, nB] = some nAB ∧ nB.name = "B" ∧ nAB.name ≠ "B" :=
  ⟨rfl, rfl, by decide⟩

/-- C1 (amended): pack resolution and path-segment resolution in
`load_item` and `list_pack_contents` all use `findMatch`, which selects the
first candidate whose name equals the segment or contains it
case-insensitively; since exact equality implies containment, this is
exactly the first case-insensitively containing entry, regardless of
whether a later entry matches exactly. -/
theorem c1_amended (seg : String) (cs : List BNode) :
    findMatch seg cs
      = cs.find? (fun c => substrB (lowerStr seg) (lowerStr c.name)) := by
  induction cs with
  | nil => rfl
  | cons c rest ih =>
    simp only [findMatch, List.find?] at ih ⊢
    cases hsub : substrB (lowerStr seg) (lowerStr c.name) with
    | true =>
      have hor : (c.name == seg || substrB (lowerStr seg) (lowerStr c.name))
          = true := by simp [hsub]
      simp [hor, hsub]
    | false =>
      have hne : (c.name == seg) = false := by
        cases heq : c.name == seg with
        | false => rfl
        | true =>
          have hcn : c.name = seg := by simpa using heq
          rw [← hcn, substrB_self (lowerStr c.name)] at hsub
          exact absurd hsub (by simp)
      simp only [hne, hsub, Bool.or_self, Bool.or_false]
      exact ih

/-- C2: a traversal fault while enumerating the children of one node
truncates only that node's subtree.  A node whose iterator faults after `k`
children behaves, for the collector and the searcher alike, exactly as a
fault-free node holding only those `k` children: earlier children (and their
subtrees) are processed in full, the accumulated results are kept, and the
traversal returns normally.  Concretely, a fault inside `faultyFolder` (after
its first child) loses only `Bmatch`: the already-collected `Amatch` and the
sibling subtree's `Cmatch` are both reported by search and by collect. -/
theorem c2_fault_truncation :
    (∀ (nm : String) (lo fo : Bool) (k : Nat) (kids : BForest) (path : String)
      (d : Int),
      collectItem (BNode.mk nm lo fo (some k) kids) path d
        = collectItem (BNode.mk nm lo fo none (BForest.take k kids)) path d)
    ∧ (∀ (nm : String) (lo fo : Bool) (k : Nat) (kids : BForest) (q : String)
      (res : List SearchHit) (mr d : Int) (pn path : String),
      searchItem (BNode.mk nm lo fo (some k) kids) q res mr d pn path
        = searchItem (BNode.mk nm lo fo none (BForest.take k kids)) q res mr d
            pn path)
    ∧ searchPacks [faultPack] "match" 50 10 []
        = [("Amatch", "P", "P/F/Amatch"), ("Cmatch", "P", "P/Cmatch")]
    ∧ collectItem faultPack "" 10 = ["P/F/Amatch", "P/Cmatch"] := by
  refine ⟨?_, ?_, rfl, rfl⟩
  · intro nm lo fo k kids path d
    simp only [collectItem]
    split
    · rfl
    · exact collectKids_fault kids k _ d
  · intro nm lo fo k kids q res mr d pn path
    simp only [searchItem]
    split
    · rfl
    · exact searchKids_fault kids k q res mr d pn _

/-- C3, counterexample: with `max_results = -1` the search returns the empty
sequence, whose length 0 is strictly greater than `max_results`; the claimed
bound fails for negative caps. -/
theorem c3_counterexample :
    ¬ (((browser_search demoBrowser
        [.pstr "kick", .pint (-1), .pint 10]).length : Int) ≤ (-1 : Int)) := by
  decide

/-- C3 (amended): the sequence returned by `browser_search` has length at
most `max 0 max_results` (for non-negative `max_results` this is the claimed
bound; a negative cap still yields the empty sequence), and every triple the
search accumulates has an item name that contains the lowercased query as a
substring of its lowercased form. -/
theorem c3_amended (br : Browser) (q0 : String) (mr md : Int) (t : SearchHit) :
    ((browser_search br [.pstr q0, .pint mr, .pint md]).length : Int)
        ≤ max 0 mr
    ∧ (t ∈ searchPacks br.packs (lowerStr q0) mr md [] →
        substrB (lowerStr q0) (lowerStr t.1) = true) := by
  constructor
  · have hbs : browser_search br [.pstr q0, .pint mr, .pint md]
        = (searchPacks br.packs (lowerStr q0) mr md []).map
            (fun t => t.1 ++ "|" ++ t.2.1 ++ "|" ++ t.2.2) := rfl
    rw [hbs, List.length_map]
    simpa using searchPacks_len br.packs (lowerStr q0) mr md []
  · intro ht
    rcases searchPacks_mem br.packs (lowerStr q0) mr md [] t ht with h | h
    · simp at h
    · rcases h with ⟨pk, _, _, hsub, _⟩
      exact hsub

/-- C3 witness: searching the demo catalog for `"KICK"` respects the cap and
the single hit's name contains the query case-insensitively. -/
theorem c3_witness :
    ((browser_search demoBrowser
        [.pstr "KICK", .pint 50, .pint 10]).length : Int) ≤ max 0 50
    ∧ substrB (lowerStr "KICK") (lowerStr "808 Kick") = true :=
  ⟨(c3_amended demoBrowser "KICK" 50 10
      ("808 Kick", "Drums Pack", "Drums Pack/Kicks/808 Kick")).1,
   (c3_amended demoBrowser "KICK" 50 10
      ("808 Kick", "Drums Pack", "Drums Pack/Kicks/808 Kick")).2 (by decide)⟩

/-- C4, counterexample: with query `""` against `twoPackBrowser`, the first
matching loadable node is the empty-named `emptyNameNode` in pack `P1`; the
handler activates it, but — because the returned name is the empty string,
which is falsy in Python — it keeps searching, activates `yNode` in pack
`P2` as well, and returns `"y"`.  Two nodes are activated and the name
returned is not the first match's. -/
theorem c4_counterexample :
    browser_search_and_load twoPackBrowser [.pstr ""]
        = (["y"], [emptyNameNode, yNode])
    ∧ (allMatches twoPackBrowser (lowerStr "")).head? = some emptyNameNode
    ∧ emptyNameNode.name = "" ∧ yNode.name = "y" :=
  ⟨rfl, rfl, rfl, rfl⟩

/-- C4 (amended): provided every matching node in the documented search
order (all pack roots first in source order, each exhausted depth-first to
depth 10, then instruments, audio effects, MIDI effects, drums, sounds) has
a non-empty name, `browser_search_and_load` activates exactly the first
match, returns its name, and visits no further nodes; with no match anywhere
it activates nothing and returns the empty-string sentinel.  (A match whose
name is empty is activated but treated as no result, and the search
continues — see the counterexample.) -/
theorem c4_amended (br : Browser) (q0 : String)
    (h : ∀ m ∈ allMatches br (lowerStr q0), m.name ≠ "") :
    browser_search_and_load br [.pstr q0]
      = (match allMatches br (lowerStr q0) with
         | [] => ([""], [])
         | m :: _ => ([m.name], [m])) := by
  have hsal : salRoots (br.packs ++ [br.instruments, br.audio_effects,
      br.midi_effects, br.drums, br.sounds]) (lowerStr q0)
      = headResult (allMatches br (lowerStr q0)) :=
    salRoots_headResult _ (lowerStr q0) h
  simp only [browser_search_and_load, pyStr]
  rw [hsal]
  cases allMatches br (lowerStr q0) with
  | nil => rfl
  | cons m tl => rfl

/-- C4 witness: on the demo catalog the query `"Kick"` has exactly one
match; it is activated and its name returned. -/
theorem c4_witness :
    browser_search_and_load demoBrowser [.pstr "Kick"]
      = (["808 Kick"], [kick]) := by
  rw [c4_amended demoBrowser "Kick" (by decide)]
  rfl

/-- C5, counterexample: for the path `"P/B"` every premise of the claim
holds under the exact-then-contains rule — two segments, the pack `P`
resolves exactly, the segment `B` resolves (exactly, without any fault) to
the loadable node `nB` — yet `browser_load_item` returns `(-1)` and
activates nothing, because the code's single-pass rule resolves `B` to the
earlier containing entry `AB`, which is not loadable. -/
theorem c5_counterexample :
    browser_load_item browserPB [.pstr "P/B"] = ([-1], [])
    ∧ splitSlash "P/B" = ["P", "B"]
    ∧ findMatch "P" browserPB.packs = some packPB
    ∧ exactThenContains "B" (yielded packPB) = some nB
    ∧ nB.is_loadable = true :=
  ⟨rfl, rfl, rfl, rfl, rfl⟩

/-- C5 (amended): `browser_load_item` returns `(1)` and activates exactly
the resolved node when the path splits on `/` into at least two segments,
the pack and every subsequent segment resolve under the code's
first-equal-or-containing rule (`findMatch`) over the children the iterator
yields before any fault, and the resolved node is loadable; in every other
case it returns `(-1)` and activates nothing. -/
theorem c5_amended (br : Browser) (p : String) :
    browser_load_item br [.pstr p]
      = (match resolvePath br p with
         | none => ([-1], [])
         | some n => if n.is_loadable then ([1], [n]) else ([-1], [])) := by
  simp only [browser_load_item, pyStr, resolvePath]
  cases hp : splitSlash p with
  | nil => rfl
  | cons pk rest =>
    cases rest with
    | nil => rfl
    | cons s rest2 =>
      have hlen : ¬ ((pk :: s :: rest2).length < 2) := by simp
      rw [if_neg hlen]
      show (match findMatch pk br.packs with
            | none => ([-1], [])
            | some pk0 =>
              match loadNavigate pk0 (s :: rest2) with
              | none => ([-1], [])
              | some item =>
                if item.is_loadable then ([1], [item]) else ([-1], []))
          = (match (findMatch pk br.packs).bind (fun p0 =>
              (s :: rest2).foldlM (fun cur seg => findMatch seg (yielded cur))
                p0) with
            | none => ([-1], [])
            | some n => if n.is_loadable then ([1], [n]) else ([-1], []))
      cases hfm : findMatch pk br.packs with
      | none => rfl
      | some pk0 =>
        show (match loadNavigate pk0 (s :: rest2) with
              | none => ([-1], [])
              | some item =>
                if item.is_loadable then ([1], [item]) else ([-1], []))
            = (match (s :: rest2).foldlM
                (fun cur seg => findMatch seg (yielded cur)) pk0 with
              | none => ([-1], [])
              | some n => if n.is_loadable then ([1], [n]) else ([-1], []))
        rw [← loadNavigate_foldlM (s :: rest2) pk0]

/-- C6: if the depth limit is at least the tree's height, the depth-limited
collector agrees with the unbounded one — the depth cap changes no output
when it is not hit. -/
theorem c6_depth_cap (t : BNode) (path : String) (d : Int)
    (h : (heightB t : Int) ≤ d) : collectItem t path d = collectUItem t path :=
  collectItem_unb t path d h

/-- C6 witness: the demo pack has height 3 ≤ 10, and collecting with depth
limit 10 equals the unbounded collection. -/
theorem c6_witness :
    (heightB demoPack : Int) ≤ 10
    ∧ collectItem demoPack "" 10 = collectUItem demoPack "" :=
  ⟨by decide, c6_depth_cap demoPack "" 10 (by decide)⟩

/-- C7, counterexample: under a pack whose name is the empty string, the
match `g` (inside folder `f`) is reported with path `"f/g"`.  No slash-joined
chain that starts with the pack's name (the empty segment) and ends with the
item's name equals this path: the pack segment is simply missing from it. -/
theorem c7_counterexample :
    searchPacks [emptyNamePack] "g" 50 10 [] = [("g", "", "f/g")]
    ∧ emptyNamePack.name = ""
    ∧ ∀ mids : List String, joinSegs ("" :: (mids ++ ["g"])) ≠ "f/g" := by
  refine ⟨rfl, rfl, ?_⟩
  intro mids h
  cases mids with
  | nil => exact absurd h (by decide)
  | cons a l =>
    have h2 : ("" : String) ++ "/" ++ joinSegs (a :: (l ++ ["g"])) = "f/g" := h
    have h3 := congrArg String.data h2
    simp [String.data_append] at h3

/-- C7 (amended): every triple accumulated by search carries as its second
component the name of the top-level pack under which the match was found,
and — provided that pack's name is non-empty — as its third component a
slash-joined path that starts with the pack's name and ends with the matched
item's name.  (For a pack named `""` the path-building restarts at the first
folder level, dropping the pack segment: see the counterexample.) -/
theorem c7_amended (packs : List BNode) (q : String) (mr md : Int)
    (t : SearchHit) (ht : t ∈ searchPacks packs q mr md []) :
    ∃ pk ∈ packs, t.2.1 = pk.name ∧
      (pk.name ≠ "" → ∃ mids : List String,
        t.2.2 = joinSegs (pk.name :: (mids ++ [t.1]))) := by
  rcases searchPacks_mem packs q mr md [] t ht with h | h
  · simp at h
  · rcases h with ⟨pk, hpk, hsnd, _, hpath⟩
    exact ⟨pk, hpk, hsnd, hpath⟩

/-- C7 witness: the demo catalog's single hit carries the pack name
`Drums Pack` and a path from that pack down to `808 Kick`. -/
theorem c7_witness :
    ∃ pk ∈ demoBrowser.packs,
      ("808 Kick", "Drums Pack", "Drums Pack/Kicks/808 Kick").2.1 = pk.name ∧
      (pk.name ≠ "" → ∃ mids : List String,
        ("808 Kick", "Drums Pack", "Drums Pack/Kicks/808 Kick").2.2
          = joinSegs (pk.name :: (mids ++
              [("808 Kick", "Drums Pack", "Drums Pack/Kicks/808 Kick").1]))) :=
  c7_amended demoBrowser.packs "kick" 50 10 _ (by decide)

/-- C8: for any depth limit ≤ 0 the collector returns the empty sequence and
the searcher returns its accumulator unchanged, whatever the children of the
given node are (no child is enumerated); consequently `browser_search` with
a non-positive depth parameter returns the empty sequence. -/
theorem c8_nonpositive_depth :
    (∀ (t : BNode) (path : String) (d : Int), d ≤ 0 → collectItem t path d = [])
    ∧ (∀ (t : BNode) (q : String) (res : List SearchHit) (mr d : Int)
        (pn path : String), d ≤ 0 → searchItem t q res mr d pn path = res)
    ∧ (∀ (br : Browser) (q0 : String) (mr md : Int), md ≤ 0 →
        browser_search br [.pstr q0, .pint mr, .pint md] = []) := by
  refine ⟨?_, ?_, ?_⟩
  · intro t path d hd
    cases t
    simp [collectItem, hd]
  · intro t q res mr d pn path hd
    exact searchItem_depth t q res mr d pn path hd
  · intro br q0 mr md hmd
    have hbs : browser_search br [.pstr q0, .pint mr, .pint md]
        = (searchPacks br.packs (lowerStr q0) mr md []).map
            (fun t => t.1 ++ "|" ++ t.2.1 ++ "|" ++ t.2.2) := rfl
    rw [hbs, searchPacks_depth br.packs (lowerStr q0) mr md [] hmd]
    rfl

/-- C8 witness. -/
theorem c8_witness :
    collectItem demoPack "" 0 = []
    ∧ searchItem demoPack "kick" [] 50 0 "Drums Pack" "" = []
    ∧ browser_search demoBrowser [.pstr "kick", .pint 50, .pint 0] = [] :=
  ⟨c8_nonpositive_depth.1 demoPack "" 0 (by decide),
   c8_nonpositive_depth.2.1 demoPack "kick" [] 50 0 "Drums Pack" "" (by decide),
   c8_nonpositive_depth.2.2 demoBrowser "kick" 50 0 (by decide)⟩

/-- C9: every handler with required parameters, called with the empty
parameter sequence, returns its documented sentinel — the empty sequence for
`list_pack_contents` and `search`, `(-1)` with no activation for
`load_item`, the empty string with no activation for `search_and_load` —
rather than raising. -/
theorem c9_empty_params (br : Browser) :
    browser_list_pack_contents br [] = []
    ∧ browser_search br [] = []
    ∧ browser_load_item br [] = ([-1], [])
    ∧ browser_search_and_load br [] = ([""], []) :=
  ⟨rfl, rfl, rfl, rfl⟩

/-- C10: the empty string is a substring of every name, so an empty path
segment resolves to the first candidate: `findMatch ""` on any non-empty
candidate list returns its head.  Concretely, a trailing slash in a
`load_item` path resolves to (and loads) the pack's first child, and an
empty pack segment resolves to the first pack. -/
theorem c10_empty_segment :
    (∀ (c : BNode) (cs : List BNode), findMatch "" (c :: cs) = some c)
    ∧ browser_load_item slashBrowser [.pstr "P/"] = ([1], [xNode])
    ∧ findMatch "" slashBrowser.packs = some slashPack := by
  refine ⟨?_, rfl, rfl⟩
  intro c cs
  have h0 : lowerStr "" = "" := rfl
  simp [findMatch, List.find?, h0, substrB_empty]
